import Mathlib

/-!
Verification of the tariff-order acquisition program (src/automation.py)
against its natural-language specification.

The program text is shallowly embedded below.  Text is modelled as
`List Char`; Python string operations (`in`, `split`, `strip`, `upper`,
`lower`, `endswith`) are translated character by character.  The keywords,
URLs and filenames handled by the program are ASCII, so the ASCII case
maps `Char.toUpper` and `Char.toLower` model `str.upper` and `str.lower`
faithfully on all inputs that occur.  Directory contents are modelled as
lists of filenames (directory listings carry no duplicate names).  HTTP
responses are modelled as an optional record of status code and declared
content type (`none` models a raised transfer exception).
-/

namespace TariffOrders

/-- Filenames, URLs and visible text, as character lists. -/
abbrev Name := List Char

/-- Model of Python str.upper for the ASCII text used by the program. -/
def upperL (s : Name) : Name := s.map Char.toUpper

/-- Model of Python str.lower for the ASCII text used by the program. -/
def lowerL (s : Name) : Name := s.map Char.toLower

/-- Boolean test that the first list starts the second list. -/
def leadsWith : Name → Name → Bool
  | [], _ => true
  | _ :: _, [] => false
  | a :: as, b :: bs => a == b && leadsWith as bs

/-- Model of the Python substring test `pat in s`. -/
def subStr (pat : Name) : Name → Bool
  | [] => leadsWith pat []
  | a :: rest => leadsWith pat (a :: rest) || subStr pat rest

/-- Model of Python `s.endswith(suf)`. -/
def tailEq (suf s : Name) : Bool := leadsWith suf.reverse s.reverse

/-- The document-suffix test used throughout automation.py:
`name.lower().endswith(".pdf")` (lines 35, 101, 111, 316, 364). -/
def pdfCI (f : Name) : Bool := tailEq ".pdf".toList (lowerL f)

/-- The in-progress-download test of line 364:
`f.endswith((".crdownload", ".tmp"))` (case sensitive, as in the source). -/
def tmpName (f : Name) : Bool :=
  tailEq ".crdownload".toList f || tailEq ".tmp".toList f

/-- Model of Python `s.split(sep)` for a one-character separator:
always returns a non-empty list of (possibly empty) pieces. -/
def splitChar (sep : Char) : Name → List Name
  | [] => [[]]
  | c :: rest =>
    if c == sep then [] :: splitChar sep rest
    else
      match splitChar sep rest with
      | [] => [[c]]
      | h :: t => (c :: h) :: t

/-- Model of Python `s.strip()` (whitespace at both ends). -/
def stripEnds (s : Name) : Name :=
  ((s.dropWhile Char.isWhitespace).reverse.dropWhile Char.isWhitespace).reverse

def allDigits (s : Name) : Bool := s.all Char.isDigit

def natOfDigits (s : Name) : Nat := s.foldl (fun n c => 10 * n + (c.toNat - 48)) 0

/-- Gregorian leap-year rule, as used by Python datetime validation. -/
def isLeap (y : Nat) : Bool := y % 4 == 0 && (y % 100 != 0 || y % 400 == 0)

def daysInMonth (y m : Nat) : Nat :=
  if m == 2 then (if isLeap y then 29 else 28)
  else if m == 4 || m == 6 || m == 9 || m == 11 then 30 else 31

/-- A calendar date, modelling Python datetime restricted to its date part
(the time part is always midnight for the dates the program constructs). -/
structure Date where
  y : Nat
  m : Nat
  d : Nat
  deriving DecidableEq

/-- Model of `datetime.min`, which is datetime(1, 1, 1). -/
def dateMin : Date := ⟨1, 1, 1⟩

/-- Chronological order of valid calendar dates as a numeric key
(months are at most 12 and days at most 31, so the key is ordered
lexicographically in year, month, day, exactly as datetime comparison). -/
def dateKey (dt : Date) : Nat := dt.y * 10000 + dt.m * 100 + dt.d

/-- Model of `datetime.strptime(s, "%d.%m.%Y")` (line 169): day and month
are one or two digits (values 1..31 and 1..12 per the strptime patterns),
the year is exactly four digits, the separators are literal dots, the whole
string must be consumed, and the datetime constructor then validates the
day against the month length (with leap years) and rejects year 0. -/
def parseDMY (s : Name) : Option Date :=
  match splitChar '.' s with
  | [ds, ms, ys] =>
    if allDigits ds && allDigits ms && allDigits ys
        && decide (1 ≤ ds.length) && decide (ds.length ≤ 2)
        && decide (1 ≤ ms.length) && decide (ms.length ≤ 2)
        && decide (ys.length = 4) then
      let d := natOfDigits ds
      let m := natOfDigits ms
      let y := natOfDigits ys
      if decide (1 ≤ d) && decide (d ≤ 31) && decide (1 ≤ m) && decide (m ≤ 12)
          && decide (1 ≤ y) && decide (d ≤ daysInMonth y m) then
        some ⟨y, m, d⟩
      else none
    else none
  | _ => none

/-- Lines 166-167 of process_assam: `date_info = cols[0].text.strip()` and
`date_str = date_info.split('&')[0].strip() if '&' in date_info else date_info`. -/
def dateStrOf (cell : Name) : Name :=
  let di := stripEnds cell
  if di.contains '&' then stripEnds (di.takeWhile (fun c => c != '&'))
  else di

/-- Lines 168-171: parse the designated date cell, with unparsable dates
replaced by `datetime.min`. -/
def assamDate (cell : Name) : Date := (parseDMY (dateStrOf cell)).getD dateMin

/-- One entry of the `matches` list built by process_assam (line 175):
the designated date cell together with the PDF URL.  The source stores the
parsed date; it is recomputed here from the cell by `assamDate`, which is
the same value because parsing is deterministic. -/
structure AssamMatch where
  dateInfo : Name
  url : Name
  deriving DecidableEq

/-- The ranking key of line 183: the parsed date of a match. -/
def mKey (x : AssamMatch) : Nat := dateKey (assamDate x.dateInfo)

/-- The selection of lines 183-184:
`matches.sort(key=lambda x: x['date'], reverse=True)` followed by
`matches[0]`.  Python sort is stable and `reverse=True` keeps the original
order of equal keys, so the head of the sorted list is the earliest element
whose key is maximal; the fold below computes exactly that element
(it replaces the current best only on a strictly larger key). -/
def pickLatest (c : AssamMatch) (cs : List AssamMatch) : AssamMatch :=
  cs.foldl (fun best x => if mKey best < mKey x then x else best) c

/-- Explicit-date ranking over the matched candidates (lines 179-184):
empty input yields no winner (the jurisdiction fails cleanly). -/
def rankByDate : List AssamMatch → Option AssamMatch
  | [] => none
  | c :: cs => some (pickLatest c cs)

/-- A raw candidate row as read by process_assam (lines 159-177): the
joined visible row text, the cell texts, and the href of the first anchor
inside the third cell when one exists (`none` models the element lookup
raising, line 176-177). -/
structure AssamRow where
  text : Name
  cells : List Name
  link2 : Option Name
  deriving DecidableEq

/-- The per-row decision of lines 161-177 of process_assam: keyword test on
the uppercased row text, the three-column requirement, and the link lookup
in the third cell; a row failing any of these contributes no match. -/
def assamRowMk (r : AssamRow) : Option AssamMatch :=
  if subStr "TARIFF ORDER".toList (upperL r.text)
      && subStr "APDCL".toList (upperL r.text) then
    if decide (3 ≤ r.cells.length) then
      match r.link2 with
      | some u => some ⟨r.cells.headD [], u⟩
      | none => none
    else none
  else none

/-- The `matches` list of process_assam, built row by row in order. -/
def assamMatches (rows : List AssamRow) : List AssamMatch :=
  rows.filterMap assamRowMk

/-- A raw candidate link as read by process_up (lines 208-215): visible
text and href (an absent href is modelled as the empty name, which is
falsy, as in the source check `if url`). -/
structure UpLink where
  text : Name
  url : Name
  deriving DecidableEq

/-- The keyword test of line 213 of process_up, on the uppercased text. -/
def upKwOk (t : Name) : Bool :=
  subStr "STATE DISCOMS".toList (upperL t)
    && subStr "TARIFF ORDER".toList (upperL t)
    && !subStr "SCANNED".toList (upperL t)

/-- The link test of line 214 of process_up: a truthy href whose lowercase
form contains ".pdf". -/
def upLinkOk (u : Name) : Bool := !u.isEmpty && subStr ".pdf".toList (lowerL u)

/-- The `matches` list of process_up (lines 208-215): a candidate is
appended when both the keyword test and the link test pass. -/
def upMatches (links : List UpLink) : List UpLink :=
  links.filter (fun l => upKwOk l.text && upLinkOk l.url)

/-- Declared transfer outcome: HTTP status and the lowercased Content-Type
header value (line 110 lowercases it before the check). -/
structure Response where
  status : Nat
  contentType : Name
  deriving DecidableEq

/-- Line 97: `filename = url.split("/")[-1]`. -/
def lastSeg (url : Name) : Name := (splitChar '/' url).getLastD []

/-- Line 98: `if '?' in filename: filename = filename.split('?')[0]`. -/
def stripQuery (f : Name) : Name :=
  if f.contains '?' then (splitChar '?' f).headD [] else f

/-- The default filename of download_file (lines 96-98). -/
def defaultName (url : Name) : Name := stripQuery (lastSeg url)

/-- Lines 100-102: `if not filename.lower().endswith(".pdf"): filename += ".pdf"`. -/
def pdfForce (f : Name) : Name :=
  if pdfCI f then f else f ++ ".pdf".toList

/-- The filename download_file saves under (lines 96-102).  A `none` or
empty explicit filename is falsy in Python, so the URL-derived default is
used; the explicit filename, when given, is not query-stripped. -/
def downloadFilename (url : Name) (expl : Option Name) : Name :=
  pdfForce (if (expl.getD []).isEmpty then defaultName url else expl.getD [])

/-- Outcome of one download_file call: the returned boolean, the resulting
directory contents, and the list of files written during this call. -/
structure DLResult where
  ok : Bool
  fs : List Name
  writes : List Name
  deriving DecidableEq

/-- Writing a file into a directory listing: `open(filepath, 'wb')`
overwrites in place, so the listing gains the name at most once. -/
def writeFile (f : Name) (fs : List Name) : List Name :=
  if decide (f ∈ fs) then fs else fs ++ [f]

def pdfMime : Name := "application/pdf".toList

/-- Model of download_file (lines 94-125).  `resp = none` models the GET
raising (line 123).  On a 200 status the guard of line 111 rejects only
when the content type lacks "application/pdf" AND the filename does not
end in ".pdf" case-insensitively; otherwise the body is written to the
filename and True is returned.  Any other status returns False.  The
function never removes an existing file. -/
def downloadFileRun (url : Name) (expl : Option Name) (resp : Option Response)
    (fs : List Name) : DLResult :=
  let filename := downloadFilename url expl
  match resp with
  | none => ⟨false, fs, []⟩
  | some r =>
    if r.status == 200 then
      if !subStr pdfMime (lowerL r.contentType) && !pdfCI filename then
        ⟨false, fs, []⟩
      else ⟨true, writeFile filename fs, [filename]⟩
    else ⟨false, fs, []⟩

/-- Model of clean_garbage_files (lines 30-40): every entry whose
lowercased name does not end in ".pdf" is deleted; every other entry is
kept (contents are never inspected). -/
def cleanGarbage (fs : List Name) : List Name := fs.filter pdfCI

/-- The successful tail of process_assam (lines 179-194): rank the matched
candidates, download the winner with no explicit filename, and always run
the cleanup; the returned flag is the download outcome. -/
def assamAttempt (rows : List AssamRow) (resp : Option Response)
    (fs0 : List Name) : Bool × List Name :=
  match rankByDate (assamMatches rows) with
  | none => (false, cleanGarbage fs0)
  | some t =>
    let r := downloadFileRun t.url none resp fs0
    (r.ok, cleanGarbage r.fs)

def tariffOrdersName : Name := "tariff-orders.pdf".toList

/-- Line 364 of process_rajasthan: the qualifying new files of one poll,
relative to the pre-wait listing `before`: present now, not present
before, ending in ".pdf" case-insensitively, and not carrying an
in-progress-download suffix.  The source iterates a Python set difference;
the filter below keeps the listing order (listings have no duplicates, and
the statements proved about this function do not depend on the order). -/
def qualNew (before after : List Name) : List Name :=
  after.filter (fun f => !(decide (f ∈ before)) && pdfCI f && !tmpName f)

/-- One poll iteration of lines 363-372: the qualifying new files, with
the fallback of lines 368-370 that treats an existing "tariff-orders.pdf"
as the download even when it is not new; the head of the resulting list is
the accepted file, none meaning this poll found nothing. -/
def rajStep (before after : List Name) : Option Name :=
  let nf := qualNew before after
  let nf2 :=
    if nf.isEmpty && decide (tariffOrdersName ∈ after) then [tariffOrdersName]
    else nf
  nf2.head?

/-- The polling loop of lines 361-387, one recursive step per one-second
poll: `pollF i` is the directory listing observed at poll `i` (the
downloads arrive from the browser, outside this code).  On acceptance the
file is renamed to the target name unless it already has it (lines
377-383); the second component records the renames the wait itself
performs on the directory. -/
def rajWaitAux (before : List Name) (target : Name) (pollF : Nat → List Name) :
    Nat → Nat → Bool × List (Name × Name)
  | 0, _ => (false, [])
  | fuel + 1, i =>
    match rajStep before (pollF i) with
    | none => rajWaitAux before target pollF fuel (i + 1)
    | some f => (true, if f == target then [] else [(f, target)])

/-- The bounded wait of line 361: exactly 60 polls (`for i in range(60)`). -/
def rajWait (before : List Name) (target : Name) (pollF : Nat → List Name) :
    Bool × List (Name × Name) :=
  rajWaitAux before target pollF 60 0

/-- Lines 350-354: the prior canonical file is removed from the directory
before the postback attempt (directory listings are sets of names, so
removal is a filter). -/
def rajBefore (fs0 : List Name) (target : Name) : List Name :=
  fs0.filter (fun f => !(f == target))

/-- The postback download path of process_rajasthan (lines 347-387):
remove the prior canonical file, snapshot the listing, then run the
bounded polling wait. -/
def rajasthanPostback (fs0 : List Name) (target : Name)
    (pollF : Nat → List Name) : Bool × List (Name × Name) :=
  rajWait (rajBefore fs0 target) target pollF

/-- Everything after the first occurrence of `sep` in the list (empty when
`sep` does not occur); used to model `url.split("file=")[1]`. -/
def afterFirstSub (sep : Name) : Name → Name
  | [] => []
  | c :: rest =>
    if leadsWith sep (c :: rest) then (c :: rest).drop sep.length
    else afterFirstSub sep rest

/-- Everything before the first occurrence of `sep` (the whole list when
`sep` does not occur); together with `afterFirstSub` this is the segment
`split(sep)[1]`, which Python cuts at the next occurrence of `sep`. -/
def takeBeforeSub (sep : Name) : Name → Name
  | [] => []
  | c :: rest =>
    if leadsWith sep (c :: rest) then []
    else c :: takeBeforeSub sep rest

def hexVal (c : Char) : Option Nat :=
  if c.isDigit then some (c.toNat - 48)
  else if decide ('A' ≤ c) && decide (c ≤ 'F') then some (c.toNat - 55)
  else if decide ('a' ≤ c) && decide (c ≤ 'f') then some (c.toNat - 87)
  else none

/-- Model of urllib.parse.unquote on the ASCII data the program handles:
each valid two-digit hex escape decodes to the character with that code;
an invalid escape keeps the percent sign literally, as unquote does. -/
def percentDecode : Name → Name
  | '%' :: a :: b :: rest =>
    (match hexVal a, hexVal b with
     | some x, some y => Char.ofNat (16 * x + y) :: percentDecode rest
     | _, _ => '%' :: percentDecode (a :: b :: rest))
  | c :: rest => c :: percentDecode rest
  | [] => []

/-- Lines 706-710 of process_bihar: when the URL contains "viewer.html"
and "file=", replace it by `unquote(url.split("file=")[1].split("&")[0])`. -/
def unwrapViewer (url : Name) : Name :=
  if subStr "viewer.html".toList url && subStr "file=".toList url then
    percentDecode
      ((takeBeforeSub "file=".toList (afterFirstSub "file=".toList url)).takeWhile
        (fun c => c != '&'))
  else url

/-- Line 718: `is_chart = "chart" in url_lower or "schedule" in url_lower`. -/
def isChartUrl (ul : Name) : Bool :=
  subStr "chart".toList ul || subStr "schedule".toList ul

/-- Line 719: `is_order = "order" in url_lower or "to_" in url_lower or
"tariff" in url_lower`. -/
def isOrderUrl (ul : Name) : Bool :=
  subStr "order".toList ul || subStr "to_".toList ul || subStr "tariff".toList ul

/-- A link classified as order and not as chart or schedule. -/
def pureOrder (url : Name) : Bool :=
  isOrderUrl (lowerL url) && !isChartUrl (lowerL url)

/-- The selection loop of lines 700-725 of process_bihar, with the
fallback variable `final_pdf_url` threaded through: a link that is order
and not chart is selected immediately; a link that is order and also chart
overwrites the fallback; other links are skipped; the loop ends on the
stored fallback. -/
def bercSelectAux : List Name → Option Name → Option Name
  | [], fb => fb
  | u :: rest, fb =>
    let url := unwrapViewer u
    let ul := lowerL url
    if isOrderUrl ul && !isChartUrl ul then some url
    else if isOrderUrl ul then bercSelectAux rest (some url)
    else bercSelectAux rest fb

/-- The DetailPageScan selection over the enumerated PDF links. -/
def bercSelect (links : List Name) : Option Name := bercSelectAux links none

/-- The control skeleton of one process_X function (for example
process_assam, lines 127-194): the setup phase (download path and driver
creation, lines 128-131) runs BEFORE the try block, so its exception
propagates; an exception inside the try block is caught and the finally
block returns the False flag (lines 188-194). -/
def processJurisdiction (setup : Except String Unit) (body : Except String Bool) :
    Except String Bool :=
  match setup with
  | Except.error e => Except.error e
  | Except.ok _ =>
    match body with
    | Except.error _ => Except.ok false
    | Except.ok b => Except.ok b

/-- The boolean a jurisdiction body yields once its exceptions are caught
at the try block boundary. -/
def caughtFlag (body : Except String Bool) : Bool :=
  match body with
  | Except.error _ => false
  | Except.ok b => b

/-- One configured jurisdiction of the `__main__` loop: its id, the
outcome of its setup phase and the outcome of its try-block body. -/
structure JurisRun where
  jname : Name
  setup : Except String Unit
  body : Except String Bool

/-- The `__main__` orchestration (lines 802-826): jurisdictions run
sequentially; each call `results[state] = process_X(...)` appends the
flag; the loop has no exception handler, so an exception escaping a
process_X call aborts the remaining jurisdictions. -/
def runAll : List JurisRun → Except String (List (Name × Bool))
  | [] => Except.ok []
  | j :: rest =>
    match processJurisdiction j.setup j.body with
    | Except.error e => Except.error e
    | Except.ok flag =>
      match runAll rest with
      | Except.error e => Except.error e
      | Except.ok tail => Except.ok ((j.jname, flag) :: tail)

/-! Helper lemmas. -/

theorem leadsWith_append (p r : Name) : leadsWith p (p ++ r) = true := by
  induction p with
  | nil => rfl
  | cons a as ih => simp [leadsWith, ih]

theorem tailEq_append_self (s t : Name) : tailEq s (t ++ s) = true := by
  unfold tailEq
  rw [List.reverse_append]
  exact leadsWith_append _ _

theorem pdfCI_append (f : Name) : pdfCI (f ++ ".pdf".toList) = true := by
  unfold pdfCI
  have h : lowerL (f ++ ".pdf".toList) = lowerL f ++ ".pdf".toList := by
    calc lowerL (f ++ ".pdf".toList)
        = lowerL f ++ lowerL ".pdf".toList := List.map_append _ _ _
      _ = lowerL f ++ ".pdf".toList := by
          rw [show lowerL ".pdf".toList = ".pdf".toList from by decide]
  rw [h]
  exact tailEq_append_self _ _

theorem pdfCI_pdfForce (f : Name) : pdfCI (pdfForce f) = true := by
  unfold pdfForce
  split
  · assumption
  · exact pdfCI_append f

theorem pdfCI_downloadFilename (url : Name) (expl : Option Name) :
    pdfCI (downloadFilename url expl) = true := by
  unfold downloadFilename
  exact pdfCI_pdfForce _

theorem mem_writeFile_self (f : Name) (fs : List Name) : f ∈ writeFile f fs := by
  unfold writeFile
  split
  · exact of_decide_eq_true (by assumption)
  · simp

theorem mem_writeFile_of_mem (g f : Name) (fs : List Name) (h : g ∈ fs) :
    g ∈ writeFile f fs := by
  unfold writeFile
  split
  · exact h
  · exact List.mem_append_left _ h

theorem dl_ok_iff (url : Name) (expl : Option Name) (resp : Option Response)
    (fs : List Name) (h : (downloadFileRun url expl resp fs).ok = true) :
    (downloadFileRun url expl resp fs).fs = writeFile (downloadFilename url expl) fs
      ∧ (downloadFileRun url expl resp fs).writes = [downloadFilename url expl] := by
  cases resp with
  | none => simp [downloadFileRun] at h
  | some r =>
    revert h
    simp only [downloadFileRun]
    split
    · split
      · intro h; simp at h
      · intro _; exact ⟨rfl, rfl⟩
    · intro h; simp at h

theorem dl_preserves (url : Name) (expl : Option Name) (resp : Option Response)
    (fs : List Name) (g : Name) (h : g ∈ fs) :
    g ∈ (downloadFileRun url expl resp fs).fs := by
  cases resp with
  | none => exact h
  | some r =>
    simp only [downloadFileRun]
    split
    · split
      · exact h
      · exact mem_writeFile_of_mem _ _ _ h
    · exact h

theorem pickLatest_spec (cs : List AssamMatch) :
    ∀ c : AssamMatch, ∃ p q, c :: cs = p ++ pickLatest c cs :: q
      ∧ (∀ x ∈ c :: cs, mKey x ≤ mKey (pickLatest c cs))
      ∧ (∀ x ∈ p, mKey x < mKey (pickLatest c cs)) := by
  induction cs with
  | nil =>
    intro c
    refine ⟨[], [], rfl, ?_, by simp⟩
    intro x hx
    have hx2 : x = c := by simpa using hx
    subst hx2
    exact Nat.le_refl _
  | cons a cs ih =>
    intro c
    by_cases h : mKey c < mKey a
    · have hpl2 : pickLatest c (a :: cs) = pickLatest a cs := by
        show pickLatest (if mKey c < mKey a then a else c) cs = pickLatest a cs
        rw [if_pos h]
      obtain ⟨p, q, heq, hmax, hstrict⟩ := ih a
      refine ⟨c :: p, q, ?_, ?_, ?_⟩
      · rw [hpl2, List.cons_append, ← heq]
      · intro x hx
        rw [hpl2]
        rcases List.mem_cons.mp hx with rfl | hx2
        · exact le_of_lt (lt_of_lt_of_le h (hmax a (List.mem_cons_self a cs)))
        · exact hmax x hx2
      · intro x hx
        rw [hpl2]
        rcases List.mem_cons.mp hx with rfl | hx2
        · exact lt_of_lt_of_le h (hmax a (List.mem_cons_self a cs))
        · exact hstrict x hx2
    · have hpl2 : pickLatest c (a :: cs) = pickLatest c cs := by
        show pickLatest (if mKey c < mKey a then a else c) cs = pickLatest c cs
        rw [if_neg h]
      have hle : mKey a ≤ mKey c := Nat.le_of_not_lt h
      obtain ⟨p, q, heq, hmax, hstrict⟩ := ih c
      cases p with
      | nil =>
        have hw : pickLatest c cs = c := by
          have h2 := heq
          simp only [List.nil_append, List.cons.injEq] at h2
          exact h2.1.symm
        refine ⟨[], a :: cs, ?_, ?_, by simp⟩
        · rw [hpl2, hw, List.nil_append]
        · intro x hx
          rw [hpl2, hw]
          rcases List.mem_cons.mp hx with rfl | hx2
          · exact Nat.le_refl _
          rcases List.mem_cons.mp hx2 with rfl | hx3
          · exact hle
          · have h3 := hmax x (List.mem_cons_of_mem c hx3)
            rwa [hw] at h3
      | cons b p' =>
        have hb : b = c ∧ cs = p' ++ pickLatest c cs :: q := by
          have h2 := heq
          simp only [List.cons_append, List.cons.injEq] at h2
          exact ⟨h2.1.symm, h2.2⟩
        refine ⟨c :: a :: p', q, ?_, ?_, ?_⟩
        · rw [hpl2]
          simp only [List.cons_append, List.cons.injEq, true_and]
          exact hb.2
        · intro x hx
          rw [hpl2]
          rcases List.mem_cons.mp hx with h4 | hx2
          · rw [h4]; exact hmax c (List.mem_cons_self c cs)
          rcases List.mem_cons.mp hx2 with h4 | hx3
          · rw [h4]; exact le_trans hle (hmax c (List.mem_cons_self c cs))
          · exact hmax x (List.mem_cons_of_mem c hx3)
        · intro x hx
          rw [hpl2]
          have hcstrict : mKey c < mKey (pickLatest c cs) := by
            have h3 := hstrict b (List.mem_cons_self b p')
            rwa [hb.1] at h3
          rcases List.mem_cons.mp hx with rfl | hx2
          · exact hcstrict
          rcases List.mem_cons.mp hx2 with rfl | hx3
          · exact lt_of_le_of_lt hle hcstrict
          · exact hstrict x (List.mem_cons_of_mem b hx3)

theorem rajWaitAux_timeout (before : List Name) (target : Name)
    (pollF : Nat → List Name) :
    ∀ (fuel i : Nat), (∀ j, j < fuel → rajStep before (pollF (i + j)) = none) →
    rajWaitAux before target pollF fuel i = (false, []) := by
  intro fuel
  induction fuel with
  | zero => intro i _; rfl
  | succ n ih =>
    intro i h
    have h0 : rajStep before (pollF i) = none := by
      have h1 := h 0 (Nat.succ_pos n)
      simpa using h1
    have hstep : rajWaitAux before target pollF (n + 1) i
        = rajWaitAux before target pollF n (i + 1) := by
      simp [rajWaitAux, h0]
    rw [hstep]
    exact ih (i + 1) (fun j hj => by
      have h2 := h (j + 1) (Nat.succ_lt_succ hj)
      rwa [show i + (j + 1) = (i + 1) + j by omega] at h2)

theorem rajWaitAux_congr (before : List Name) (target : Name)
    (pollF pollG : Nat → List Name) :
    ∀ (fuel i : Nat), (∀ j, j < fuel → pollF (i + j) = pollG (i + j)) →
    rajWaitAux before target pollF fuel i = rajWaitAux before target pollG fuel i := by
  intro fuel
  induction fuel with
  | zero => intro i _; rfl
  | succ n ih =>
    intro i h
    have h0 : pollF i = pollG i := by
      have h1 := h 0 (Nat.succ_pos n)
      simpa using h1
    have hrest : rajWaitAux before target pollF n (i + 1)
        = rajWaitAux before target pollG n (i + 1) :=
      ih (i + 1) (fun j hj => by
        have h2 := h (j + 1) (Nat.succ_lt_succ hj)
        rwa [show i + (j + 1) = (i + 1) + j by omega] at h2)
    simp [rajWaitAux, h0, hrest]

theorem bercSelectAux_pure (links : List Name) :
    ∀ (fb : Option Name) (u : Name), u ∈ links → pureOrder (unwrapViewer u) = true →
    ∃ r, bercSelectAux links fb = some r ∧ pureOrder r = true := by
  induction links with
  | nil => intro fb u hu _; simp at hu
  | cons a rest ih =>
    intro fb u hu hp
    by_cases ha : pureOrder (unwrapViewer a) = true
    · refine ⟨unwrapViewer a, ?_, ha⟩
      have ha2 : (isOrderUrl (lowerL (unwrapViewer a))
          && !isChartUrl (lowerL (unwrapViewer a))) = true := ha
      simp [bercSelectAux, ha2]
    · have hu2 : u ∈ rest := by
        rcases List.mem_cons.mp hu with h2 | h2
        · exact absurd (h2 ▸ hp) ha
        · exact h2
      have ha2 : (isOrderUrl (lowerL (unwrapViewer a))
          && !isChartUrl (lowerL (unwrapViewer a))) = false := by
        have h3 : pureOrder (unwrapViewer a) = false := Bool.eq_false_iff.mpr ha
        exact h3
      by_cases ho : isOrderUrl (lowerL (unwrapViewer a)) = true
      · have hch : isChartUrl (lowerL (unwrapViewer a)) = true := by
          rw [ho] at ha2
          simpa using ha2
        have hstep : bercSelectAux (a :: rest) fb
            = bercSelectAux rest (some (unwrapViewer a)) := by
          simp [bercSelectAux, ho, hch]
        rw [hstep]
        exact ih (some (unwrapViewer a)) u hu2 hp
      · have ho2 : isOrderUrl (lowerL (unwrapViewer a)) = false :=
          Bool.eq_false_iff.mpr ho
        have hstep : bercSelectAux (a :: rest) fb = bercSelectAux rest fb := by
          simp [bercSelectAux, ha2, ho2]
        rw [hstep]
        exact ih fb u hu2 hp

theorem runAll_ok (js : List JurisRun) (h : ∀ j ∈ js, j.setup = Except.ok ()) :
    runAll js = Except.ok (js.map (fun j => (j.jname, caughtFlag j.body))) := by
  induction js with
  | nil => rfl
  | cons j rest ih =>
    have hj : j.setup = Except.ok () := h j (List.mem_cons_self _ _)
    have hrest := ih (fun x hx => h x (List.mem_cons_of_mem _ hx))
    simp only [runAll, processJurisdiction, hj, hrest, List.map_cons]
    cases hb : j.body with
    | error e => simp [caughtFlag, hb]
    | ok b => simp [caughtFlag, hb]

/-! Claim theorems. -/

/-- C1, counterexample: a UP candidate whose uppercased row text contains
both required keywords ("STATE DISCOMS", "TARIFF ORDER") and no excluded
keyword ("SCANNED") is nevertheless NOT returned by the matcher, because
its href does not contain ".pdf" (line 214); so the matcher does not
return exactly the keyword-matching candidates. -/
theorem c1_counterexample :
    upMatches [⟨"State Discoms Tariff Order 2024".toList, "http://x/page.aspx".toList⟩]
      = []
    ∧ upKwOk "State Discoms Tariff Order 2024".toList = true := by
  exact ⟨by decide, by decide⟩

/-- C1, amended: the matcher returns, in original order, exactly those
candidates that pass the keyword test on the uppercased joined text AND
additionally carry a usable document link (UP: a non-empty href whose
lowercase form contains ".pdf"; Assam: at least three cells and an
extractable link in the third cell); in particular a candidate missing a
required keyword or containing an excluded keyword is never returned. -/
theorem c1_matcher_with_link :
    (∀ (links : List UpLink) (l : UpLink),
        l ∈ upMatches links ↔ l ∈ links ∧ upKwOk l.text = true ∧ upLinkOk l.url = true)
    ∧ (∀ links : List UpLink, (upMatches links).Sublist links)
    ∧ (∀ (rows : List AssamRow) (m : AssamMatch), m ∈ assamMatches rows →
        ∃ r, r ∈ rows ∧ assamRowMk r = some m
          ∧ subStr "TARIFF ORDER".toList (upperL r.text) = true
          ∧ subStr "APDCL".toList (upperL r.text) = true) := by
  refine ⟨?_, ?_, ?_⟩
  · intro links l
    simp [upMatches, List.mem_filter, Bool.and_eq_true, and_assoc]
  · intro links
    exact List.filter_sublist _
  · intro rows m hm
    obtain ⟨r, hr, hmk⟩ := List.mem_filterMap.mp hm
    by_cases hc : (subStr "TARIFF ORDER".toList (upperL r.text)
        && subStr "APDCL".toList (upperL r.text)) = true
    · have hsplit : subStr "TARIFF ORDER".toList (upperL r.text) = true
          ∧ subStr "APDCL".toList (upperL r.text) = true := by
        simpa using hc
      exact ⟨r, hr, hmk, hsplit.1, hsplit.2⟩
    · exfalso
      have hc2 := Bool.eq_false_iff.mpr hc
      unfold assamRowMk at hmk
      rw [hc2] at hmk
      simp at hmk

/-- C1, witness: a candidate passing the keyword test and carrying a
".pdf" link is returned by the matcher. -/
theorem c1_matcher_witness :
    (⟨"STATE DISCOMS TARIFF ORDER 2024".toList, "http://x/a.pdf".toList⟩ : UpLink)
      ∈ upMatches
        [⟨"STATE DISCOMS TARIFF ORDER 2024".toList, "http://x/a.pdf".toList⟩] :=
  (c1_matcher_with_link.1 _ _).mpr ⟨by simp, by decide, by decide⟩

/-- C2, counterexample: a candidate whose date cell does not parse is
given `datetime.min`, which is the same value as the parseable date
"01.01.0001"; with the unparsable candidate first, the tie is broken in
its favour and it wins over a candidate with a parseable date,
contradicting the claim that an unparsable date never wins over any
parseable date regardless of input order. -/
theorem c2_counterexample :
    rankByDate [⟨"NOT A DATE".toList, "http://a/u1.pdf".toList⟩,
                ⟨"01.01.0001".toList, "http://a/u2.pdf".toList⟩]
      = some ⟨"NOT A DATE".toList, "http://a/u1.pdf".toList⟩
    ∧ parseDMY (dateStrOf "NOT A DATE".toList) = none
    ∧ parseDMY (dateStrOf "01.01.0001".toList) = some dateMin := by
  exact ⟨by decide, by decide, by decide⟩

/-- C2, amended: for every non-empty list of matched candidates the
selected winner attains the maximum effective date (unparsable cells
count as the minimum date value, datetime.min) and is the earliest
candidate attaining it, so ties are broken in favour of the earlier
candidate and an unparsable candidate never wins over a candidate whose
parsed date is strictly above the minimum; a candidate that parses to
exactly the minimum date 01.01.0001 can tie with an unparsable one.  In
particular, for the two rows "TARIFF ORDER APDCL 12.05.2023" and
"TARIFF ORDER APDCL 01.01.2024" the 01.01.2024 row is selected. -/
theorem c2_ranking :
    (∀ (c : AssamMatch) (cs : List AssamMatch), ∃ w p q,
        rankByDate (c :: cs) = some w
        ∧ c :: cs = p ++ w :: q
        ∧ (∀ x ∈ c :: cs, mKey x ≤ mKey w)
        ∧ (∀ x ∈ p, mKey x < mKey w))
    ∧ rankByDate (assamMatches
        [⟨"TARIFF ORDER APDCL 12.05.2023".toList,
          ["12.05.2023".toList, "x".toList, "y".toList],
          some "http://a/o2023.pdf".toList⟩,
         ⟨"TARIFF ORDER APDCL 01.01.2024".toList,
          ["01.01.2024".toList, "x".toList, "y".toList],
          some "http://a/o2024.pdf".toList⟩])
      = some ⟨"01.01.2024".toList, "http://a/o2024.pdf".toList⟩ := by
  constructor
  · intro c cs
    obtain ⟨p, q, heq, hmax, hstrict⟩ := pickLatest_spec cs c
    exact ⟨pickLatest c cs, p, q, rfl, heq, hmax, hstrict⟩
  · decide

/-- C2, witness: the ranking property applied to a concrete singleton. -/
theorem c2_ranking_witness : ∃ w p q,
    rankByDate [(⟨"12.05.2023".toList, "http://a/u1.pdf".toList⟩ : AssamMatch)]
      = some w
    ∧ [(⟨"12.05.2023".toList, "http://a/u1.pdf".toList⟩ : AssamMatch)] = p ++ w :: q
    ∧ (∀ x ∈ [(⟨"12.05.2023".toList, "http://a/u1.pdf".toList⟩ : AssamMatch)],
        mKey x ≤ mKey w)
    ∧ (∀ x ∈ p, mKey x < mKey w) :=
  c2_ranking.1 _ []

/-- C3: a transfer answered with status 200 and content type "text/html"
for a URL ending in ".pdf" is NOT rejected by download_file: the saved
filename is always normalized to end in ".pdf" (lines 100-102), which
makes the rejection guard of line 111 unreachable, so the call succeeds
and writes the file, against the stated (and printed, line 112) intent of
aborting on a non-PDF content type. -/
theorem c3_html_not_rejected :
    (downloadFileRun "http://h/doc.pdf".toList none
        (some ⟨200, "text/html".toList⟩) []).ok = true
    ∧ (downloadFileRun "http://h/doc.pdf".toList none
        (some ⟨200, "text/html".toList⟩) []).fs = ["doc.pdf".toList] := by
  exact ⟨by decide, by decide⟩

/-- C4: the saved filename defaults to the last path segment of the URL
with the query string stripped when no explicit name is supplied, and in
every case the saved filename passes the document-suffix test of the
program, `filename.lower().endswith(".pdf")` — also when the URL has no
extension, has a query string, or has a different extension. -/
theorem c4_filename_normalization :
    (∀ (url : Name) (expl : Option Name), pdfCI (downloadFilename url expl) = true)
    ∧ downloadFilename "http://h/p/name.pdf?x=1".toList none = "name.pdf".toList
    ∧ downloadFilename "http://h/report".toList none = "report.pdf".toList
    ∧ downloadFilename "http://h/f.txt".toList none = "f.txt.pdf".toList
    ∧ downloadFilename "http://h/F.PDF".toList none = "F.PDF".toList := by
  exact ⟨pdfCI_downloadFilename, by decide, by decide, by decide, by decide⟩

/-- C5, counterexample: (i) the direct transfer performs no removal: with
the prior canonical file present and the attempt failing with status 404,
the directory still contains the prior canonical file after the attempt,
so the attempt did not remove it beforehand; (ii) the browser-mediated
wait reports success pointing at the pre-existing "tariff-orders.pdf"
left from an earlier run (the fallback of lines 368-370), a file not
produced by this attempt. -/
theorem c5_counterexample :
    downloadFileRun "http://h/x.pdf".toList (some "Rajasthan_Tariff_Order.pdf".toList)
        (some ⟨404, "text/html".toList⟩) ["Rajasthan_Tariff_Order.pdf".toList]
      = ⟨false, ["Rajasthan_Tariff_Order.pdf".toList], []⟩
    ∧ rajasthanPostback ["stale.pdf".toList, "tariff-orders.pdf".toList]
        "Rajasthan_Tariff_Order.pdf".toList
        (fun _ => ["stale.pdf".toList, "tariff-orders.pdf".toList])
      = (true, [("tariff-orders.pdf".toList, "Rajasthan_Tariff_Order.pdf".toList)])
    ∧ tariffOrdersName ∈ ["stale.pdf".toList, "tariff-orders.pdf".toList] := by
  exact ⟨by decide, by decide, by decide⟩

/-- C5, amended: only the browser-mediated (postback) path removes the
prior canonical file before its attempt (lines 350-354); the direct
transfer removes nothing — every pre-existing file survives the call —
but whenever it reports success the file it points to was written during
that very call (it overwrites in place), while the browser-mediated wait
can additionally report success for a pre-existing "tariff-orders.pdf"
not produced by the attempt. -/
theorem c5_removal_and_freshness :
    (∀ (fs0 : List Name) (target : Name), target ∉ rajBefore fs0 target)
    ∧ (∀ (url : Name) (expl : Option Name) (resp : Option Response)
        (fs : List Name) (g : Name), g ∈ fs → g ∈ (downloadFileRun url expl resp fs).fs)
    ∧ (∀ (url : Name) (expl : Option Name) (resp : Option Response) (fs : List Name),
        (downloadFileRun url expl resp fs).ok = true →
        (downloadFileRun url expl resp fs).writes = [downloadFilename url expl]
        ∧ downloadFilename url expl ∈ (downloadFileRun url expl resp fs).fs) := by
  refine ⟨?_, ?_, ?_⟩
  · intro fs0 target h
    have h2 := (List.mem_filter.mp h).2
    simp at h2
  · intro url expl resp fs g h
    exact dl_preserves url expl resp fs g h
  · intro url expl resp fs h
    obtain ⟨hfs, hw⟩ := dl_ok_iff url expl resp fs h
    refine ⟨hw, ?_⟩
    rw [hfs]
    exact mem_writeFile_self _ _

/-- C5, witness: a concrete successful direct transfer writes the file it
reports. -/
theorem c5_witness :
    (downloadFileRun "http://h/a.pdf".toList none
        (some ⟨200, "application/pdf".toList⟩) []).writes = ["a.pdf".toList]
    ∧ "a.pdf".toList ∈ (downloadFileRun "http://h/a.pdf".toList none
        (some ⟨200, "application/pdf".toList⟩) []).fs := by
  have h := c5_removal_and_freshness.2.2 "http://h/a.pdf".toList none
    (some ⟨200, "application/pdf".toList⟩) [] (by decide)
  have heq : downloadFilename "http://h/a.pdf".toList none = "a.pdf".toList := by decide
  exact ⟨by rw [h.1, heq], heq ▸ h.2⟩

/-- C6, counterexample: a successful Assam run over a directory already
holding a stale PDF leaves TWO document files behind — the cleanup only
removes non-PDF entries and the saved name is derived from the URL — so
the directory does not contain exactly one document file under a
canonical name. -/
theorem c6_counterexample :
    assamAttempt
        [⟨"TARIFF ORDER APDCL 01.01.2024".toList,
          ["01.01.2024".toList, "x".toList, "y".toList],
          some "http://h/new.pdf".toList⟩]
        (some ⟨200, "application/pdf".toList⟩) ["old.pdf".toList]
      = (true, ["old.pdf".toList, "new.pdf".toList])
    ∧ pdfCI "old.pdf".toList = true ∧ pdfCI "new.pdf".toList = true := by
  exact ⟨by decide, by decide, by decide⟩

/-- C6, amended: after any Assam run (successful or not) every file left
in the target directory passes the document-suffix test — no transient
artifacts remain — and a successful run leaves the file it downloaded
(named from the winning URL, not from a fixed canonical name) present in
the directory; pre-existing PDF files are retained, so the directory may
hold more than one document file. -/
theorem c6_directory_after_run :
    (∀ (rows : List AssamRow) (resp : Option Response) (fs0 : List Name),
        ∀ f ∈ (assamAttempt rows resp fs0).2, pdfCI f = true)
    ∧ (∀ (rows : List AssamRow) (resp : Option Response) (fs0 : List Name),
        (assamAttempt rows resp fs0).1 = true →
        ∃ t, rankByDate (assamMatches rows) = some t
          ∧ downloadFilename t.url none ∈ (assamAttempt rows resp fs0).2) := by
  constructor
  · intro rows resp fs0 f hf
    unfold assamAttempt at hf
    cases hrk : rankByDate (assamMatches rows) with
    | none =>
      rw [hrk] at hf
      exact (List.mem_filter.mp hf).2
    | some t =>
      rw [hrk] at hf
      exact (List.mem_filter.mp hf).2
  · intro rows resp fs0 hok
    unfold assamAttempt at hok ⊢
    cases hrk : rankByDate (assamMatches rows) with
    | none =>
      rw [hrk] at hok
      simp at hok
    | some t =>
      rw [hrk] at hok
      refine ⟨t, rfl, ?_⟩
      obtain ⟨hfs, _⟩ := dl_ok_iff t.url none resp fs0 hok
      show downloadFilename t.url none
        ∈ cleanGarbage (downloadFileRun t.url none resp fs0).fs
      rw [hfs]
      exact List.mem_filter.mpr
        ⟨mem_writeFile_self _ _, pdfCI_downloadFilename _ _⟩

/-- C6, witness: the success-case property at a concrete successful run. -/
theorem c6_witness :
    ∃ t, rankByDate (assamMatches
        [⟨"TARIFF ORDER APDCL 01.01.2024".toList,
          ["01.01.2024".toList, "x".toList, "y".toList],
          some "http://h/a.pdf".toList⟩]) = some t
      ∧ downloadFilename t.url none
        ∈ (assamAttempt
            [⟨"TARIFF ORDER APDCL 01.01.2024".toList,
              ["01.01.2024".toList, "x".toList, "y".toList],
              some "http://h/a.pdf".toList⟩]
            (some ⟨200, "application/pdf".toList⟩) []).2 :=
  c6_directory_after_run.2 _ (some ⟨200, "application/pdf".toList⟩) [] (by decide)

/-- C7, counterexample: an exception raised during the setup phase of the
first jurisdiction (lines 128-131 run BEFORE the try block, and the
`__main__` loop has no handler) aborts the whole run: the second
jurisdiction is never processed and the aggregate result maps no
jurisdiction at all. -/
theorem c7_counterexample :
    runAll [⟨"Assam".toList, Except.error "driver setup failed", Except.ok true⟩,
            ⟨"UP".toList, Except.ok (), Except.ok true⟩]
      = Except.error "driver setup failed" := rfl

/-- C7, amended: provided every jurisdiction setup phase (the code before
the try block) succeeds, the orchestrator runs the configured
jurisdictions sequentially and maps every jurisdiction id to a boolean
flag, an exception inside a jurisdiction try block being converted to
a False flag rather than propagating; an exception in the setup phase,
however, propagates and aborts the remaining jurisdictions. -/
theorem c7_isolation :
    (∀ js : List JurisRun, (∀ j ∈ js, j.setup = Except.ok ()) →
        runAll js = Except.ok (js.map (fun j => (j.jname, caughtFlag j.body))))
    ∧ (∀ e : String, processJurisdiction (Except.ok ()) (Except.error e)
        = Except.ok false)
    ∧ (∀ e : String, ∀ body : Except String Bool,
        processJurisdiction (Except.error e) body = Except.error e) := by
  refine ⟨runAll_ok, fun e => rfl, fun e body => rfl⟩

/-- C7, witness: two jurisdictions with succeeding setups, the first body
raising; both get flags and the run is not aborted. -/
theorem c7_witness :
    runAll [⟨"Assam".toList, Except.ok (), Except.error "timeout"⟩,
            ⟨"UP".toList, Except.ok (), Except.ok true⟩]
      = Except.ok [("Assam".toList, false), ("UP".toList, true)] := by
  have h := c7_isolation.1
    [⟨"Assam".toList, Except.ok (), Except.error "timeout"⟩,
     ⟨"UP".toList, Except.ok (), Except.ok true⟩]
    (by intro j hj
        rcases List.mem_cons.mp hj with h1 | h2
        · rw [h1]
        · rcases List.mem_cons.mp h2 with h3 | h4
          · rw [h3]
          · simp at h4)
  exact h

/-- C8: in the DetailPageScan selection, whenever some enumerated link
unwraps to an order-classified, non-chart URL, the selected link is
order-classified and not chart-classified (so an order link is preferred
over a chart or schedule link); the scan over the two candidate links
TO_2024.pdf and Chart_2024.pdf selects TO_2024.pdf in either input
order; and an embedded-viewer URL is unwrapped by percent-decoding its
file query parameter. -/
theorem c8_detail_scan :
    (∀ (links : List Name) (u : Name), u ∈ links →
        pureOrder (unwrapViewer u) = true →
        ∃ r, bercSelect links = some r ∧ pureOrder r = true)
    ∧ bercSelect ["http://x/TO_2024.pdf".toList, "http://x/Chart_2024.pdf".toList]
        = some "http://x/TO_2024.pdf".toList
    ∧ bercSelect ["http://x/Chart_2024.pdf".toList, "http://x/TO_2024.pdf".toList]
        = some "http://x/TO_2024.pdf".toList
    ∧ unwrapViewer "http://x/viewer.html?file=http%3A%2F%2Fy%2FTO_2024.pdf".toList
        = "http://y/TO_2024.pdf".toList := by
  refine ⟨?_, by decide, by decide, by decide⟩
  intro links u hu hp
  exact bercSelectAux_pure links none u hu hp

/-- C8, witness: the preference property applied to the concrete scenario. -/
theorem c8_witness :
    ∃ r, bercSelect ["http://x/Chart_2024.pdf".toList, "http://x/TO_2024.pdf".toList]
        = some r ∧ pureOrder r = true :=
  c8_detail_scan.1 _ "http://x/TO_2024.pdf".toList (by simp) (by decide)

/-- C9, counterexample: with a stale "tariff-orders.pdf" present before
the wait begins and no new file ever appearing, the wait reports success
at the first poll and renames the pre-existing file, contradicting the
claim that in the absence of a qualifying new file the wait returns
failure and leaves the pre-existing file set unchanged. -/
theorem c9_counterexample :
    rajWait ["tariff-orders.pdf".toList] "Rajasthan_Tariff_Order.pdf".toList
        (fun _ => ["tariff-orders.pdf".toList])
      = (true, [("tariff-orders.pdf".toList, "Rajasthan_Tariff_Order.pdf".toList)])
    ∧ qualNew ["tariff-orders.pdf".toList] ["tariff-orders.pdf".toList] = [] := by
  exact ⟨by decide, by decide⟩

/-- C9, amended: the wait is bounded at 60 one-second polls (its outcome
depends only on the first 60 listings); a file accepted through the
qualifying-new-files path is a PDF-suffixed non-temporary file absent
from the pre-wait listing; and when no poll shows a qualifying new file
NOR a file named "tariff-orders.pdf", the wait returns failure and
performs no rename, leaving the pre-existing files untouched. -/
theorem c9_wait_bounded :
    (∀ (before : List Name) (target : Name) (pollF : Nat → List Name),
        (∀ i, i < 60 → qualNew before (pollF i) = [] ∧ tariffOrdersName ∉ pollF i) →
        rajWait before target pollF = (false, []))
    ∧ (∀ (before : List Name) (target : Name) (pollF pollG : Nat → List Name),
        (∀ i, i < 60 → pollF i = pollG i) →
        rajWait before target pollF = rajWait before target pollG)
    ∧ (∀ (before after : List Name) (f : Name), f ∈ qualNew before after →
        pdfCI f = true ∧ tmpName f = false ∧ f ∉ before) := by
  refine ⟨?_, ?_, ?_⟩
  · intro before target pollF h
    apply rajWaitAux_timeout
    intro j hj
    rw [Nat.zero_add]
    obtain ⟨h1, h2⟩ := h j hj
    simp [rajStep, h1, h2]
  · intro before target pollF pollG h
    apply rajWaitAux_congr
    intro j hj
    exact h (0 + j) (by simpa using hj)
  · intro before after f hf
    obtain ⟨hmem, hcond⟩ := List.mem_filter.mp hf
    simp only [Bool.and_eq_true, Bool.not_eq_true', decide_eq_false_iff_not] at hcond
    exact ⟨hcond.1.2, hcond.2, hcond.1.1⟩

/-- C9, witness: a wait over an unchanging directory times out with no
file-system effect. -/
theorem c9_witness :
    rajWait ["done.pdf".toList] "T.pdf".toList (fun _ => ["done.pdf".toList])
      = (false, []) :=
  c9_wait_bounded.1 _ _ _ (by intro i _; exact ⟨rfl, by decide⟩)

/-- C10: the cleanup keeps exactly the entries passing the case-insensitive
".pdf" suffix test (all others are deleted, and suffix-passing files are
never touched, their contents never inspected); every filename the direct
transfer writes under passes that test; hence a file written by the
retriever and still present is always preserved by the cleanup. -/
theorem c10_cleanup_frame :
    (∀ (fs : List Name) (f : Name), f ∈ cleanGarbage fs ↔ f ∈ fs ∧ pdfCI f = true)
    ∧ (∀ (url : Name) (expl : Option Name), pdfCI (downloadFilename url expl) = true)
    ∧ (∀ (url : Name) (expl : Option Name) (fs : List Name),
        downloadFilename url expl ∈ fs →
        downloadFilename url expl ∈ cleanGarbage fs) := by
  refine ⟨?_, pdfCI_downloadFilename, ?_⟩
  · intro fs f
    exact List.mem_filter
  · intro url expl fs h
    exact List.mem_filter.mpr ⟨h, pdfCI_downloadFilename url expl⟩

/-- C10, witness: a retriever-written filename survives a cleanup that
deletes a non-PDF neighbour. -/
theorem c10_witness :
    downloadFilename "http://h/a.pdf".toList none
      ∈ cleanGarbage ["a.pdf".toList, "junk.html".toList] :=
  c10_cleanup_frame.2.2 "http://h/a.pdf".toList none
    ["a.pdf".toList, "junk.html".toList] (by decide)

end TariffOrders
